import Mathlib

/-!
Shallow embedding of the SpiralBot v2.1 simulation engine
(`bue_flashbot_virtual.py`).  Python floats are modelled by `ℚ`,
wall-clock timestamps by `ℤ` seconds, the CSV event-log file by an
`Option (List (List String))` (`none` = file absent), and the
`BotManager` instance state by the `BotState` structure.  The
environment-driven configuration constants are gathered in `Config`;
`defaultConfig` holds the defaults hard-coded in the source.
-/

namespace SpiralBot

/-- The 12-column CSV header of `log_to_csv` (lines 239-242). -/
def logHeader : List String :=
  ["session_id", "timestamp", "symbol", "price", "bue", "delta",
   "signal", "value_estimate", "action", "pnl", "close_reason", "equity"]

/-- Lock operations performed on the log file by `log_to_csv`
(`fcntl.flock` calls, lines 266, 275, 284). -/
inductive LockEv where
  | acquire
  | release
deriving DecidableEq, Repr

/-- The persisted log file: `none` when the file does not exist yet,
`some rows` for its list of CSV rows. -/
abbrev LogStore := Option (List (List String))

/-- Session-id normalisation performed at the top of `log_to_csv`
(lines 245-248): an 11-field row gets the session id prepended; a
12-field row whose first field differs from the session id has that
field overwritten. -/
def normalizeRow (sid : String) (row : List String) : List String :=
  if row.length = 11 then sid :: row
  else if row.length = 12 then
    match row with
    | [] => []
    | a :: rest => if a = sid then a :: rest else sid :: rest
  else row

/-- Result of one `log_to_csv` call: returned boolean, resulting file
contents, and the trace of lock operations performed. -/
structure LogResult where
  ok : Bool
  store : LogStore
  trace : List LockEv
deriving DecidableEq, Repr

/-- Embedding of `BotManager.log_to_csv` (lines 234-294): normalise the
row (lines 245-248), create the file with the header row if it is
absent (lines 250-258, opened in write mode, which succeeds).  Each of
the three attempts of the append loop (lines 261-291) then opens the
file in write-only append mode (`'a'`, line 263), acquires the
exclusive lock (line 266) and tries to read the persisted header back
from that handle (lines 269-271); reading a write-only handle raises
`io.UnsupportedOperation`, the `except` clause at line 289 catches it,
and closing the file on leaving the `with` block releases the lock.
The header comparison, the row write (line 281) and the explicit
unlock are therefore never reached: after three identical attempts the
function returns `False` (line 294) with the file contents unchanged,
whatever the row and whatever the persisted header. -/
def log_to_csv (sid : String) (store : LogStore) (rowData : List String) :
    LogResult :=
  let _row := normalizeRow sid rowData
  let rs := store.getD [logHeader]
  { ok := false, store := some rs,
    trace := [LockEv.acquire, LockEv.release, LockEv.acquire,
              LockEv.release, LockEv.acquire, LockEv.release] }

/-- Embedding of `BotManager.generate_signal` (lines 219-232). -/
def generate_signal (currentPrice bueValue : ℚ) : String × ℚ :=
  if currentPrice ≤ 0 then ("HOLD", 0)
  else
    let delta := (bueValue - currentPrice) / currentPrice * 100
    if 6/5 < delta then ("BUY", delta)
    else if delta < -(6/5) then ("SELL", delta)
    else ("HOLD", delta)

/-- The rolling-window maintenance of a symbol's price history
performed at the top of `BotManager.calculate_bue_value`
(lines 178-189): append the current price, then pop the front element
when the window exceeds 20 entries. -/
def pushPrice (hist : List ℚ) (p : ℚ) : List ℚ :=
  let h := hist ++ [p]
  if 20 < h.length then h.tail else h

/-- Configuration constants (environment-driven, lines 32-41). -/
structure Config where
  riskPerTrade : ℚ
  feePct : ℚ
  trailingStopPct : ℚ
  stopLossPct : ℚ
  takeProfitPct : ℚ
  maxPositions : ℕ
  tradeDuration : ℤ

/-- The default values hard-coded in the source (lines 32-41). -/
def defaultConfig : Config :=
  { riskPerTrade := 1/20, feePct := 1/1000, trailingStopPct := 1/50,
    stopLossPct := 3/100, takeProfitPct := 1/20, maxPositions := 3,
    tradeDuration := 300 }

/-- An open position, as stored in `self.positions[symbol]`
(lines 347-354).  `side` is the original signal string
("BUY" or "SELL"); `trade_value` is the entry notional net of the
entry fee. -/
structure Position where
  entry_price : ℚ
  quantity : ℚ
  timestamp : ℤ
  peak_price : ℚ
  side : String
  trade_value : ℚ
deriving DecidableEq, Repr

/-- The mutable `BotManager` state relevant to the trading core:
`positions` keeps dict insertion order as an association list. -/
structure BotState where
  session_id : String
  cash : ℚ
  portfolio_value : ℚ
  positions : List (String × Position)
  store : LogStore
deriving DecidableEq, Repr

/-- Initial state of a fresh `BotManager` (lines 86-95) with the
default initial portfolio of 1000. -/
def initState (sid : String) : BotState :=
  { session_id := sid, cash := 1000, portfolio_value := 1000,
    positions := [], store := none }

/-- The per-position unrealized P&L summed by `calculate_equity`
(lines 418-428), with fallback to the entry price when the symbol is
missing from the price snapshot. -/
def unrealizedPnl (positions : List (String × Position))
    (prices : List (String × ℚ)) : ℚ :=
  positions.foldl (fun acc sp =>
    let pos := sp.2
    let p := (prices.lookup sp.1).getD pos.entry_price
    if pos.side = "BUY" then acc + (pos.quantity * p - pos.trade_value)
    else acc + (pos.trade_value - pos.quantity * p)) 0

/-- Embedding of `BotManager.calculate_equity` (lines 416-431): returns
cash plus unrealized P&L and writes the result into the stored
`portfolio_value` field (line 430). -/
def calculate_equity (st : BotState) (prices : List (String × ℚ)) :
    ℚ × BotState :=
  let pv := st.cash + unrealizedPnl st.positions prices
  (pv, { st with portfolio_value := pv })

/-- Embedding of `BotManager.deposit_funds` (lines 296-314): reject
non-positive amounts; otherwise credit cash and portfolio value, then
attempt the log append and return its result. -/
def deposit_funds (st : BotState) (amount : ℚ) : Bool × BotState :=
  if amount ≤ 0 then (false, st)
  else
    let st1 := { st with cash := st.cash + amount,
                         portfolio_value := st.portfolio_value + amount }
    let row := [st1.session_id, "ts", "SYSTEM", "0", "0", "0", "DEPOSIT",
                toString amount, "DEPOSIT", "0", "N/A",
                toString st1.portfolio_value]
    let r := log_to_csv st1.session_id st1.store row
    (r.ok, { st1 with store := r.store })

/-- Embedding of `BotManager.execute_trade` (lines 316-370): guard
chain (signal kind, max positions, duplicate symbol, minimum trade
size), then open the position, debit cash by the full notional,
recompute equity and append the OPEN row. -/
def execute_trade (cfg : Config) (st : BotState) (symbol sig : String)
    (price delta : ℚ) (now : ℤ) : Bool × BotState :=
  if ¬ (sig = "BUY" ∨ sig = "SELL") then (false, st)
  else if cfg.maxPositions ≤ st.positions.length then (false, st)
  else if (st.positions.lookup symbol).isSome then (false, st)
  else
    let tradeValue := st.cash * cfg.riskPerTrade
    if tradeValue < 10 then (false, st)
    else
      let fee := tradeValue * cfg.feePct
      let netTradeValue := tradeValue - fee
      let quantity := netTradeValue / price
      let pos : Position :=
        { entry_price := price, quantity := quantity, timestamp := now,
          peak_price := price, side := sig, trade_value := netTradeValue }
      let st1 := { st with positions := st.positions ++ [(symbol, pos)],
                           cash := st.cash - tradeValue }
      let er := calculate_equity st1 [(symbol, price)]
      let st2 := er.2
      let row := [st2.session_id, "ts", symbol, toString price, "0",
                  toString delta, sig, toString netTradeValue, "OPEN", "0",
                  "N/A", toString er.1]
      let r := log_to_csv st2.session_id st2.store row
      (r.ok, { st2 with store := r.store })

/-- The entry attempt as performed each cycle by `run_simulation`
(lines 544-546): `execute_trade` is invoked only for BUY/SELL signals
whose absolute delta exceeds the execution threshold 1.5. -/
def attemptEntry (cfg : Config) (st : BotState) (symbol sig : String)
    (price delta : ℚ) (now : ℤ) : Bool × BotState :=
  if (sig = "BUY" ∨ sig = "SELL") ∧ 3/2 < |delta| then
    execute_trade cfg st symbol sig price delta now
  else (false, st)

/-- Embedding of `BotManager.close_position` (lines 372-414): compute
side-dependent proceeds and P&L, charge the exit fee, credit cash,
recompute equity (with the position still present, as in the source),
append the CLOSE row, and finally delete the position. -/
def close_position (cfg : Config) (st : BotState) (symbol : String)
    (currentPrice : ℚ) (reason : String) :
    (ℚ × String × String) × BotState :=
  match st.positions.lookup symbol with
  | none => ((0, "NONE", reason), st)
  | some pos =>
    let proceeds :=
      if pos.side = "BUY" then pos.quantity * currentPrice
      else pos.trade_value
    let pnl :=
      if pos.side = "BUY" then pos.quantity * currentPrice - pos.trade_value
      else pos.trade_value - pos.quantity * currentPrice
    let exitFee := proceeds * cfg.feePct
    let netPnl := pnl - exitFee
    let st1 := { st with cash := st.cash + (proceeds - exitFee) }
    let action := "CLOSE_" ++ pos.side
    let er := calculate_equity st1 [(symbol, currentPrice)]
    let st2 := er.2
    let row := [st2.session_id, "ts", symbol, toString currentPrice, "0",
                "0", action, toString proceeds, action, toString netPnl,
                reason, toString er.1]
    let r := log_to_csv st2.session_id st2.store row
    let st3 :=
      { st2 with
        store := r.store
        positions := st2.positions.eraseP (fun kv => kv.1 == symbol) }
    ((netPnl, action, reason), st3)

/-- Peak-price update at the top of the `manage_positions` loop body
(lines 445-448): max for BUY, min otherwise. -/
def updatePeak (pos : Position) (price : ℚ) : Position :=
  if pos.side = "BUY" then { pos with peak_price := max pos.peak_price price }
  else { pos with peak_price := min pos.peak_price price }

/-- In-place mutation of one symbol's position entry, as performed by
`pos["peak_price"] = ...` on the dict value (lines 446-448). -/
def updatePositions (ps : List (String × Position)) (symbol : String)
    (pos : Position) : List (String × Position) :=
  ps.map fun kv => if kv.1 = symbol then (symbol, pos) else kv

/-- The ordered exit-rule chain of `manage_positions` (lines 456-476),
evaluated on the peak-updated position: trailing stop, then hard stop
loss, then take profit, then time-based exit; `none` when no rule
fires. -/
def exitReasonFor (cfg : Config) (pos : Position) (price : ℚ) (now : ℤ) :
    Option String :=
  if (pos.side = "BUY" ∧ price ≤ pos.peak_price * (1 - cfg.trailingStopPct)) ∨
     (pos.side = "SELL" ∧ pos.peak_price * (1 + cfg.trailingStopPct) ≤ price)
    then some "TRAILING_STOP"
  else if (pos.side = "BUY" ∧ price ≤ pos.entry_price * (1 - cfg.stopLossPct)) ∨
          (pos.side = "SELL" ∧ pos.entry_price * (1 + cfg.stopLossPct) ≤ price)
    then some "STOP_LOSS"
  else if (pos.side = "BUY" ∧ pos.entry_price * (1 + cfg.takeProfitPct) ≤ price) ∨
          (pos.side = "SELL" ∧ price ≤ pos.entry_price * (1 - cfg.takeProfitPct))
    then some "TAKE_PROFIT"
  else if cfg.tradeDuration ≤ now - pos.timestamp then some "TIMED_EXIT"
  else none

/-- The loop body of `manage_positions` (lines 440-477) over the
snapshot of position keys: update the current position's peak in
place, then close and return at the first satisfied exit rule,
otherwise continue with the next symbol.  The `none` lookup branch is
unreachable from `manage_positions` (the loop returns as soon as it
deletes a position). -/
def manageGo (cfg : Config) (prices : List (String × ℚ)) (now : ℤ) :
    List String → BotState → (ℚ × String × String) × BotState
  | [], st => ((0, "NONE", "N/A"), st)
  | symbol :: rest, st =>
    match st.positions.lookup symbol with
    | none => manageGo cfg prices now rest st
    | some pos0 =>
      let price := (prices.lookup symbol).getD pos0.entry_price
      let pos := updatePeak pos0 price
      let st1 := { st with positions := updatePositions st.positions symbol pos }
      match exitReasonFor cfg pos price now with
      | some reason => close_position cfg st1 symbol price reason
      | none => manageGo cfg prices now rest st1

/-- Embedding of `BotManager.manage_positions` (lines 433-478). -/
def manage_positions (cfg : Config) (st : BotState)
    (prices : List (String × ℚ)) (now : ℤ) :
    (ℚ × String × String) × BotState :=
  if st.positions.isEmpty then ((0, "NONE", "N/A"), st)
  else manageGo cfg prices now (st.positions.map Prod.fst) st

/-- One per-symbol iteration of the cycle loop of `run_simulation`
(lines 534-565): skip non-positive prices, generate the signal from
the fair-value estimate, attempt an entry on strong signals, run exit
management over the full price map, recompute equity, and append the
scan row.  The fair-value estimate (`calculate_bue_value`, which mixes
in unseeded randomness) is passed in as the function `bue`. -/
def cycleStep (cfg : Config) (prices : List (String × ℚ))
    (bue : String → ℚ → ℚ) (now : ℤ) (st : BotState) (sp : String × ℚ) :
    BotState :=
  if sp.2 ≤ 0 then st
  else
    let b := bue sp.1 sp.2
    let sd := generate_signal sp.2 b
    let ve := st.cash / (prices.length : ℚ) * (1 + sd.2 / 100)
    let st1 := (attemptEntry cfg st sp.1 sd.1 sp.2 sd.2 now).2
    let mr := manage_positions cfg st1 prices now
    let st2 := mr.2
    let er := calculate_equity st2 prices
    let st3 := er.2
    let row := [st3.session_id, "ts", sp.1, toString sp.2, toString b,
                toString sd.2, sd.1, toString ve,
                if mr.1.2.1 ≠ "NONE" then mr.1.2.1 else "SCAN",
                toString mr.1.1,
                if mr.1.2.2 ≠ "N/A" then mr.1.2.2 else "N/A",
                toString er.1]
    let r := log_to_csv st3.session_id st3.store row
    { st3 with store := r.store }

/-- One full cycle of `run_simulation` (lines 519-574): the per-symbol
loop folded over the fetched price map. -/
def processCycle (cfg : Config) (st : BotState)
    (prices : List (String × ℚ)) (bue : String → ℚ → ℚ) (now : ℤ) :
    BotState :=
  prices.foldl (cycleStep cfg prices bue now) st

/-- States reachable from a fresh `BotManager` by the engine's state
transitions. -/
inductive Reachable (cfg : Config) : BotState → Prop where
  | init (sid : String) : Reachable cfg (initState sid)
  | deposit {st} (amount : ℚ) :
      Reachable cfg st → Reachable cfg (deposit_funds st amount).2
  | entry {st} (symbol sig : String) (price delta : ℚ) (now : ℤ) :
      Reachable cfg st →
      Reachable cfg (attemptEntry cfg st symbol sig price delta now).2
  | openTrade {st} (symbol sig : String) (price delta : ℚ) (now : ℤ) :
      Reachable cfg st →
      Reachable cfg (execute_trade cfg st symbol sig price delta now).2
  | close {st} (symbol : String) (price : ℚ) (reason : String) :
      Reachable cfg st →
      Reachable cfg (close_position cfg st symbol price reason).2
  | manage {st} (prices : List (String × ℚ)) (now : ℤ) :
      Reachable cfg st →
      Reachable cfg (manage_positions cfg st prices now).2
  | equity {st} (prices : List (String × ℚ)) :
      Reachable cfg st → Reachable cfg (calculate_equity st prices).2
  | cycle {st} (prices : List (String × ℚ)) (bue : String → ℚ → ℚ) (now : ℤ) :
      Reachable cfg st → Reachable cfg (processCycle cfg st prices bue now)

/-- The structural invariant of the position book: distinct symbols and
at most the configured maximum number of open positions. -/
def PosInv (cfg : Config) (st : BotState) : Prop :=
  (st.positions.map Prod.fst).Nodup ∧ st.positions.length ≤ cfg.maxPositions

end SpiralBot

namespace SpiralBot

/-! Helper lemmas about the association-list operations used by the
engine state. -/

theorem foldl_preserve {α σ : Type} (P : σ → Prop) (f : σ → α → σ)
    (h : ∀ s a, P s → P (f s a)) :
    ∀ (l : List α) (s : σ), P s → P (List.foldl f s l)
  | [], _, hs => hs
  | a :: l, s, hs => foldl_preserve P f h l (f s a) (h s a hs)

theorem lookup_cons_self {l : List (String × Position)} {s : String}
    {p : Position} : ((s, p) :: l).lookup s = some p := by
  simp [List.lookup]

theorem lookup_cons_ne {l : List (String × Position)} {a : String × Position}
    {s : String} (h : s ≠ a.1) : (a :: l).lookup s = l.lookup s := by
  obtain ⟨k, v⟩ := a
  simp only [List.lookup]
  rw [beq_eq_false_iff_ne.mpr (by simpa using h)]

theorem lookup_append_of_not_mem {l₁ : List (String × Position)}
    (l₂ : List (String × Position)) {s : String}
    (h : s ∉ l₁.map Prod.fst) : (l₁ ++ l₂).lookup s = l₂.lookup s := by
  induction l₁ with
  | nil => rfl
  | cons a l ih =>
    simp only [List.map_cons, List.mem_cons] at h
    push_neg at h
    rw [List.cons_append, lookup_cons_ne h.1, ih h.2]

theorem lookup_isSome_iff_mem (l : List (String × Position)) (s : String) :
    (l.lookup s).isSome ↔ s ∈ l.map Prod.fst := by
  induction l with
  | nil => simp [List.lookup]
  | cons a l ih =>
    by_cases h : s = a.1
    · obtain ⟨k, v⟩ := a
      subst h
      simp [lookup_cons_self]
    · rw [lookup_cons_ne h]
      simp [ih, h]

theorem map_fst_updatePositions (ps : List (String × Position)) (s : String)
    (p : Position) : (updatePositions ps s p).map Prod.fst = ps.map Prod.fst := by
  induction ps with
  | nil => rfl
  | cons a l ih =>
    simp only [updatePositions, List.map_cons] at ih ⊢
    by_cases h : a.1 = s
    · simp [h, ih]
    · simp [h, ih]

theorem updatePositions_of_not_mem {ps : List (String × Position)}
    {s : String} (p : Position) (h : s ∉ ps.map Prod.fst) :
    updatePositions ps s p = ps := by
  induction ps with
  | nil => rfl
  | cons a l ih =>
    simp only [List.map_cons, List.mem_cons] at h
    push_neg at h
    simp only [updatePositions, List.map_cons] at ih ⊢
    rw [if_neg (fun hh => h.1 hh.symm)]
    rw [ih h.2]

theorem updatePositions_append (l₁ l₂ : List (String × Position)) (s : String)
    (p : Position) :
    updatePositions (l₁ ++ l₂) s p
      = updatePositions l₁ s p ++ updatePositions l₂ s p := by
  simp [updatePositions]

theorem updatePositions_cons_self (l : List (String × Position)) (s : String)
    (p0 p : Position) :
    updatePositions ((s, p0) :: l) s p = (s, p) :: updatePositions l s p := by
  simp [updatePositions]

theorem map_fst_eraseP (ps : List (String × Position)) (s : String) :
    (ps.eraseP (fun kv => kv.1 == s)).map Prod.fst
      = (ps.map Prod.fst).erase s := by
  induction ps with
  | nil => rfl
  | cons a l ih =>
    by_cases h : a.1 = s
    · simp [List.eraseP_cons, List.erase_cons, h]
    · simp [List.eraseP_cons, List.erase_cons, h, ih]

/-- The per-position signed unrealized P&L as summed by
`calculate_equity`, with entry-price fallback. -/
def positionPnl (prices : List (String × ℚ)) (sp : String × Position) : ℚ :=
  let pos := sp.2
  let p := (prices.lookup sp.1).getD pos.entry_price
  if pos.side = "BUY" then pos.quantity * p - pos.trade_value
  else pos.trade_value - pos.quantity * p

theorem unrealizedPnl_eq_sum (positions : List (String × Position))
    (prices : List (String × ℚ)) :
    unrealizedPnl positions prices
      = (positions.map (positionPnl prices)).sum := by
  suffices h : ∀ (l : List (String × Position)) (acc : ℚ),
      l.foldl (fun acc sp =>
        let pos := sp.2
        let p := (prices.lookup sp.1).getD pos.entry_price
        if pos.side = "BUY" then acc + (pos.quantity * p - pos.trade_value)
        else acc + (pos.trade_value - pos.quantity * p)) acc
        = acc + (l.map (positionPnl prices)).sum by
    simpa [unrealizedPnl] using h positions 0
  intro l
  induction l with
  | nil => simp
  | cons a t ih =>
    intro acc
    rw [List.foldl_cons, ih, List.map_cons, List.sum_cons]
    by_cases h : a.2.side = "BUY" <;> simp [h, positionPnl] <;> ring

end SpiralBot

namespace SpiralBot

/-- C7: for every record, if the persisted first row of the store
differs from the expected 12-field header, `log_to_csv` returns failure
without appending the record and without deleting or altering any
existing content of the store (every attempt raises before the write;
the lock of each of the three attempts is released again). -/
theorem log_append_header_mismatch_fails :
    ∀ (sid : String) (rows : List (List String)) (row : List String),
    rows.head? ≠ some logHeader →
    log_to_csv sid (some rows) row =
      { ok := false, store := some rows,
        trace := [LockEv.acquire, LockEv.release, LockEv.acquire,
                  LockEv.release, LockEv.acquire, LockEv.release] } := by
  intro sid rows row _h
  rfl

/-- Witness for C7 at a concrete mismatched store. -/
theorem log_append_header_mismatch_fails_witness :
    log_to_csv "S" (some [["bad"]]) ["x"] =
      { ok := false, store := some [["bad"]],
        trace := [LockEv.acquire, LockEv.release, LockEv.acquire,
                  LockEv.release, LockEv.acquire, LockEv.release] } :=
  log_append_header_mismatch_fails "S" [["bad"]] ["x"] (by decide)

/-- C1 (code bug): the append claimed to succeed never happens.  The
append loop opens the CSV in write-only append mode and then reads
from that handle to verify the header, so every one of the three
attempts raises `io.UnsupportedOperation` before the header comparison
and the write; `log_to_csv` therefore returns failure and leaves the
store unchanged on every input — in particular on the claim's domain,
an existing store whose first row is the expected header. -/
theorem log_append_always_fails :
    ∀ (sid : String) (rows : List (List String)) (row : List String),
    (log_to_csv sid (some rows) row).ok = false ∧
    (log_to_csv sid (some rows) row).store = some rows := by
  intro sid rows row
  exact ⟨rfl, rfl⟩

/-- C8: for positive prices the emitted signal is BUY exactly when
delta exceeds 1.2, SELL exactly when delta is below minus 1.2 and HOLD
otherwise (boundaries included), where delta is the percentage gap of
the fair-value estimate over the price; non-positive prices force
(HOLD, 0). -/
theorem generate_signal_classification :
    ∀ currentPrice bueValue : ℚ,
    (0 < currentPrice →
      (generate_signal currentPrice bueValue).2
          = (bueValue - currentPrice) / currentPrice * 100 ∧
      ((generate_signal currentPrice bueValue).1 = "BUY"
          ↔ 6/5 < (bueValue - currentPrice) / currentPrice * 100) ∧
      ((generate_signal currentPrice bueValue).1 = "SELL"
          ↔ (bueValue - currentPrice) / currentPrice * 100 < -(6/5)) ∧
      ((generate_signal currentPrice bueValue).1 = "HOLD"
          ↔ -(6/5) ≤ (bueValue - currentPrice) / currentPrice * 100
            ∧ (bueValue - currentPrice) / currentPrice * 100 ≤ 6/5)) ∧
    (currentPrice ≤ 0 → generate_signal currentPrice bueValue = ("HOLD", 0)) := by
  intro p b
  constructor
  · intro hp
    rw [generate_signal, if_neg (not_le.mpr hp)]
    by_cases h1 : 6/5 < (b - p) / p * 100
    · rw [if_pos h1]
      refine ⟨rfl, ⟨fun _ => h1, fun _ => rfl⟩, ?_, ?_⟩
      · exact ⟨fun hc => by simp at hc, fun hc => by exfalso; linarith⟩
      · exact ⟨fun hc => by simp at hc,
          fun hc => by exfalso; linarith [hc.2]⟩
    · rw [if_neg h1]
      by_cases h2 : (b - p) / p * 100 < -(6/5)
      · rw [if_pos h2]
        refine ⟨rfl, ?_, ⟨fun _ => h2, fun _ => rfl⟩, ?_⟩
        · exact ⟨fun hc => by simp at hc, fun hc => absurd hc h1⟩
        · exact ⟨fun hc => by simp at hc,
            fun hc => by exfalso; linarith [hc.1]⟩
      · rw [if_neg h2]
        refine ⟨rfl, ?_, ?_, ?_⟩
        · exact ⟨fun hc => by simp at hc, fun hc => absurd hc h1⟩
        · exact ⟨fun hc => by simp at hc, fun hc => absurd hc h2⟩
        · exact ⟨fun _ => ⟨not_lt.mp h2, not_lt.mp h1⟩, fun _ => rfl⟩
  · intro hp
    rw [generate_signal, if_pos hp]

/-- Witness for C8 at concrete prices on both sides of the guard. -/
theorem generate_signal_classification_witness :
    (generate_signal 1 2).2 = 100 ∧ (generate_signal 1 2).1 = "BUY" ∧
    generate_signal 0 5 = ("HOLD", 0) := by
  have h := generate_signal_classification 1 2
  have h1 := (h.1 (by norm_num)).1
  have h2 := ((h.1 (by norm_num)).2.1).mpr (by norm_num [h1])
  have h3 := (generate_signal_classification 0 5).2 (by norm_num)
  exact ⟨by rw [h1]; norm_num, h2, h3⟩

/-- C9: for every sequence of appended prices the price-history window
never exceeds 20 entries and always equals the most recent at most 20
prices in arrival order (the oldest entry evicted first). -/
theorem price_history_window :
    ∀ ps : List ℚ,
    (List.foldl pushPrice [] ps).length ≤ 20 ∧
    List.foldl pushPrice [] ps = ps.drop (ps.length - 20) := by
  intro ps
  induction ps using List.reverseRecOn with
  | nil => simp
  | append_singleton ps p ih =>
    obtain ⟨hlen, heq⟩ := ih
    rw [List.foldl_append, List.foldl_cons, List.foldl_nil, heq]
    rw [pushPrice]
    by_cases h : ps.length < 20
    · have h0 : ps.length - 20 = 0 := by omega
      rw [h0, List.drop_zero]
      rw [if_neg (by simp; omega)]
      constructor
      · simp
        omega
      · rw [List.length_append, List.length_singleton]
        have h1 : ps.length + 1 - 20 = 0 := by omega
        rw [h1, List.drop_zero]
    · have h20 : 20 ≤ ps.length := by omega
      have hdl : (ps.drop (ps.length - 20)).length = 20 := by
        rw [List.length_drop]
        omega
      rw [if_pos (by simp [hdl])]
      have hne : ps.drop (ps.length - 20) ≠ [] := by
        intro hc
        rw [hc] at hdl
        simp at hdl
      obtain ⟨x, t, hxt⟩ := List.exists_cons_of_ne_nil hne
      constructor
      · rw [hxt]
        have : (x :: t).length = 20 := by rw [← hxt]; exact hdl
        simp at this ⊢
        omega
      · rw [hxt, List.cons_append, List.tail_cons]
        have hx : t ++ [p] = ps.drop (ps.length - 20 + 1) ++ [p] := by
          have : (ps.drop (ps.length - 20)).tail = t := by rw [hxt]; rfl
          rw [← this, List.tail_drop]
        rw [hx]
        rw [List.length_append, List.length_singleton]
        have harith : ps.length + 1 - 20 = ps.length - 20 + 1 := by omega
        rw [harith, List.drop_append_of_le_length (by omega)]

/-- C10: for every positive amount, `deposit_funds` increases cash and
the stored portfolio value by exactly that amount before attempting the
log append; when the append fails (mismatched persisted header) the
function returns failure while the increased cash and portfolio value
persist. -/
theorem deposit_increases_before_append :
    ∀ (st : BotState) (amount : ℚ) (rows : List (List String)),
    0 < amount →
    (deposit_funds st amount).2.cash = st.cash + amount ∧
    (deposit_funds st amount).2.portfolio_value
        = st.portfolio_value + amount ∧
    (st.store = some rows → rows.head? ≠ some logHeader →
      (deposit_funds st amount).1 = false) := by
  intro st amount rows h
  rw [deposit_funds, if_neg (not_le.mpr h)]
  refine ⟨rfl, rfl, ?_⟩
  intro hs hh
  simp [log_to_csv, hs, hh]

/-- Witness for C10: a concrete deposit over a store with a bad header
fails while the balance increase persists. -/
theorem deposit_increases_before_append_witness :
    (deposit_funds
        { session_id := "S", cash := 0, portfolio_value := 0,
          positions := [], store := some [["bad"]] } 5).2.cash = 0 + 5 ∧
    (deposit_funds
        { session_id := "S", cash := 0, portfolio_value := 0,
          positions := [], store := some [["bad"]] } 5).1 = false := by
  have h := deposit_increases_before_append
    { session_id := "S", cash := 0, portfolio_value := 0,
      positions := [], store := some [["bad"]] } 5 [["bad"]] (by norm_num)
  exact ⟨h.1, h.2.2 rfl (by decide)⟩

end SpiralBot

namespace SpiralBot

/-- Effect of `close_position` when the symbol is open: returned
triple, cash credit, and the position-list update. -/
theorem close_position_of_lookup (cfg : Config) (st : BotState)
    (symbol : String) (price : ℚ) (reason : String) (pos : Position)
    (h : st.positions.lookup symbol = some pos) :
    (close_position cfg st symbol price reason).1
        = ((if pos.side = "BUY" then pos.quantity * price - pos.trade_value
            else pos.trade_value - pos.quantity * price)
           - (if pos.side = "BUY" then pos.quantity * price
              else pos.trade_value) * cfg.feePct,
           "CLOSE_" ++ pos.side, reason) ∧
    (close_position cfg st symbol price reason).2.cash
        = st.cash + ((if pos.side = "BUY" then pos.quantity * price
                      else pos.trade_value)
            - (if pos.side = "BUY" then pos.quantity * price
               else pos.trade_value) * cfg.feePct) ∧
    (close_position cfg st symbol price reason).2.positions
        = st.positions.eraseP (fun kv => kv.1 == symbol) := by
  simp only [close_position, h, calculate_equity]
  simp

/-- C2 (counterexample): closing a SHORT does not credit cash by
(committedNet minus cost minus exit fee).  For a SHORT with
committedNet 100, quantity 1, exit price 90 and the default fee rate,
the code credits committedNet minus exit fee = 99.9, not
100 - 90 - 0.1 = 9.9. -/
theorem close_short_credit_counterexample :
    (close_position defaultConfig
        { session_id := "S", cash := 0, portfolio_value := 0,
          positions := [("A",
            { entry_price := 100, quantity := 1, timestamp := 0,
              peak_price := 100, side := "SELL", trade_value := 100 })],
          store := some [logHeader] } "A" 90 "STOP_LOSS").2.cash
      = 999/10 ∧
    (999/10 : ℚ) ≠ 0 + (100 - 1 * 90 - 100 * defaultConfig.feePct) := by
  constructor
  · norm_num [close_position, defaultConfig, calculate_equity,
      unrealizedPnl, log_to_csv, normalizeRow, List.lookup, logHeader]
    simp
    norm_num
  · norm_num [defaultConfig]

/-- C2 (amended): for every open position and exit price,
`close_position` computes pnl = quantity*price - committedNet for a
LONG and committedNet - quantity*price for a SHORT, charges an exit fee
of proceeds*feeRate (proceeds = quantity*price for LONG, committedNet
for SHORT), returns net_pnl = pnl - exit fee, credits cash by
(proceeds - exit fee) — for a SHORT that is committedNet - exit fee,
independent of the exit price — and removes the position from the open
set. -/
theorem close_position_effects :
    ∀ (cfg : Config) (st : BotState) (symbol : String) (price : ℚ)
      (reason : String) (pos : Position),
    st.positions.lookup symbol = some pos →
    ((pos.side = "BUY" →
        (close_position cfg st symbol price reason).1.1
            = (pos.quantity * price - pos.trade_value)
              - pos.quantity * price * cfg.feePct ∧
        (close_position cfg st symbol price reason).2.cash
            = st.cash + (pos.quantity * price
                - pos.quantity * price * cfg.feePct)) ∧
     (pos.side = "SELL" →
        (close_position cfg st symbol price reason).1.1
            = (pos.trade_value - pos.quantity * price)
              - pos.trade_value * cfg.feePct ∧
        (close_position cfg st symbol price reason).2.cash
            = st.cash + (pos.trade_value
                - pos.trade_value * cfg.feePct))) ∧
    (close_position cfg st symbol price reason).2.positions.map Prod.fst
        = (st.positions.map Prod.fst).erase symbol := by
  intro cfg st symbol price reason pos h
  obtain ⟨h1, h2, h3⟩ := close_position_of_lookup cfg st symbol price reason pos h
  refine ⟨⟨?_, ?_⟩, ?_⟩
  · intro hb
    rw [h1, h2]
    simp [hb]
  · intro hs
    rw [h1, h2]
    rw [hs]
    simp
  · rw [h3, map_fst_eraseP]

/-- Witness for C2 (amended) at a concrete LONG close. -/
theorem close_position_effects_witness :
    ((close_position defaultConfig
        { session_id := "S", cash := 0, portfolio_value := 0,
          positions := [("A",
            { entry_price := 100, quantity := 1, timestamp := 0,
              peak_price := 100, side := "BUY", trade_value := 100 })],
          store := some [logHeader] } "A" 110 "TAKE_PROFIT").2.cash
      = 0 + ((1 : ℚ) * 110 - 1 * 110 * defaultConfig.feePct)) ∧
    ((close_position defaultConfig
        { session_id := "S", cash := 0, portfolio_value := 0,
          positions := [("A",
            { entry_price := 100, quantity := 1, timestamp := 0,
              peak_price := 100, side := "BUY", trade_value := 100 })],
          store := some [logHeader] } "A" 110 "TAKE_PROFIT").2.positions.map
            Prod.fst = (["A"].erase "A")) := by
  have h := close_position_effects defaultConfig
    { session_id := "S", cash := 0, portfolio_value := 0,
      positions := [("A",
        { entry_price := 100, quantity := 1, timestamp := 0,
          peak_price := 100, side := "BUY", trade_value := 100 })],
      store := some [logHeader] } "A" 110 "TAKE_PROFIT"
    { entry_price := 100, quantity := 1, timestamp := 0,
      peak_price := 100, side := "BUY", trade_value := 100 } rfl
  exact ⟨(h.1.1 rfl).2, h.2⟩

/-- C4 (counterexample): `calculate_equity` is not read-only on the
engine state: it overwrites the stored portfolio-value field with the
computed equity. -/
theorem calculate_equity_mutates_portfolio_value :
    (calculate_equity
        { session_id := "S", cash := 900, portfolio_value := 0,
          positions := [("BTC",
            { entry_price := 100, quantity := 1, timestamp := 0,
              peak_price := 100, side := "BUY", trade_value := 100 })],
          store := none } [("BTC", 105)]).2.portfolio_value
      ≠ (0 : ℚ) := by
  norm_num [calculate_equity, unrealizedPnl, List.lookup]

/-- C4 (amended): `calculate_equity` returns cash plus the sum of
unrealized P&L of open positions and mutates neither cash, nor any
open position, nor the stored log or session id — but it does write
the computed equity into the stored portfolio-value field. -/
theorem calculate_equity_readonly_except_portfolio_value :
    ∀ (st : BotState) (prices : List (String × ℚ)),
    (calculate_equity st prices).1
        = st.cash + (st.positions.map (positionPnl prices)).sum ∧
    (calculate_equity st prices).2.cash = st.cash ∧
    (calculate_equity st prices).2.positions = st.positions ∧
    (calculate_equity st prices).2.store = st.store ∧
    (calculate_equity st prices).2.session_id = st.session_id ∧
    (calculate_equity st prices).2.portfolio_value
        = (calculate_equity st prices).1 := by
  intro st prices
  refine ⟨?_, rfl, rfl, rfl, rfl, rfl⟩
  rw [calculate_equity]
  rw [unrealizedPnl_eq_sum]

end SpiralBot

namespace SpiralBot

/-- C5: an entry attempt (the per-cycle guard of `run_simulation`
composed with `execute_trade`) is rejected with no state change
whenever the signal is HOLD, the open-position count is at least the
configured maximum, a position already exists for the symbol, the
absolute delta is at most the execution threshold 1.5, or the computed
trade notional (cash times risk-per-trade) is below the minimum trade
floor of 10. -/
theorem attemptEntry_rejections :
    ∀ (cfg : Config) (st : BotState) (symbol sig : String)
      (price delta : ℚ) (now : ℤ),
    (sig = "HOLD" ∨ cfg.maxPositions ≤ st.positions.length ∨
      (st.positions.lookup symbol).isSome ∨ |delta| ≤ 3/2 ∨
      st.cash * cfg.riskPerTrade < 10) →
    attemptEntry cfg st symbol sig price delta now = (false, st) := by
  intro cfg st symbol sig price delta now h
  rw [attemptEntry]
  by_cases hg : (sig = "BUY" ∨ sig = "SELL") ∧ 3/2 < |delta|
  · rw [if_pos hg]
    obtain ⟨hsig, hdelta⟩ := hg
    simp only [execute_trade]
    rcases h with h | h | h | h | h
    · exfalso
      subst h
      rcases hsig with h' | h' <;> simp at h'
    · rw [if_neg (not_not_intro hsig), if_pos h]
    · rw [if_neg (not_not_intro hsig)]
      by_cases g2 : cfg.maxPositions ≤ st.positions.length
      · rw [if_pos g2]
      · rw [if_neg g2, if_pos h]
    · exfalso
      linarith
    · rw [if_neg (not_not_intro hsig)]
      by_cases g2 : cfg.maxPositions ≤ st.positions.length
      · rw [if_pos g2]
      · rw [if_neg g2]
        by_cases g3 : (st.positions.lookup symbol).isSome = true
        · rw [if_pos g3]
        · rw [if_neg g3, if_pos h]
  · rw [if_neg hg]

/-- Witness for C5: a HOLD signal is rejected without state change. -/
theorem attemptEntry_rejections_witness :
    attemptEntry defaultConfig (initState "W") "BTC" "HOLD" 5 0 0
      = (false, initState "W") :=
  attemptEntry_rejections defaultConfig (initState "W") "BTC" "HOLD" 5 0 0
    (Or.inl rfl)

end SpiralBot

namespace SpiralBot

/-! Preservation of the position-book invariant by every state
transition of the engine. -/

theorem posInv_of_positions_eq {cfg : Config} {st st' : BotState}
    (h : st'.positions = st.positions) (hp : PosInv cfg st) :
    PosInv cfg st' := by
  rw [PosInv, h]
  exact hp

theorem deposit_funds_positions (st : BotState) (amount : ℚ) :
    (deposit_funds st amount).2.positions = st.positions := by
  rw [deposit_funds]
  split <;> rfl

theorem posInv_append_one {cfg : Config} {st st' : BotState}
    (s : String) (p : Position)
    (hpos : st'.positions = st.positions ++ [(s, p)])
    (hp : PosInv cfg st) (hlen : st.positions.length < cfg.maxPositions)
    (hmem : s ∉ st.positions.map Prod.fst) : PosInv cfg st' := by
  constructor
  · rw [hpos, List.map_append]
    simp [List.nodup_append, hp.1, hmem]
  · rw [hpos, List.length_append]
    simp only [List.length_singleton]
    omega

theorem execute_trade_posInv (cfg : Config) (st : BotState)
    (symbol sig : String) (price delta : ℚ) (now : ℤ)
    (hp : PosInv cfg st) :
    PosInv cfg (execute_trade cfg st symbol sig price delta now).2 := by
  simp only [execute_trade]
  by_cases g1 : ¬(sig = "BUY" ∨ sig = "SELL")
  · rw [if_pos g1]; exact hp
  · rw [if_neg g1]
    by_cases g2 : cfg.maxPositions ≤ st.positions.length
    · rw [if_pos g2]; exact hp
    · rw [if_neg g2]
      by_cases g3 : (st.positions.lookup symbol).isSome = true
      · rw [if_pos g3]; exact hp
      · rw [if_neg g3]
        by_cases g4 : st.cash * cfg.riskPerTrade < 10
        · rw [if_pos g4]; exact hp
        · rw [if_neg g4]
          refine posInv_append_one symbol _ rfl hp (not_le.mp g2) ?_
          rw [← lookup_isSome_iff_mem]
          simpa using g3

theorem close_position_posInv (cfg : Config) (st : BotState)
    (symbol : String) (price : ℚ) (reason : String)
    (hp : PosInv cfg st) :
    PosInv cfg (close_position cfg st symbol price reason).2 := by
  cases h : st.positions.lookup symbol with
  | none => simp only [close_position, h]; exact hp
  | some pos =>
    have h3 := (close_position_of_lookup cfg st symbol price reason pos h).2.2
    constructor
    · rw [h3, map_fst_eraseP]
      exact hp.1.erase symbol
    · have hle : (st.positions.eraseP (fun kv => kv.1 == symbol)).length
          ≤ st.positions.length := (List.eraseP_sublist _).length_le
      rw [h3]
      exact le_trans hle hp.2

theorem attemptEntry_posInv (cfg : Config) (st : BotState)
    (symbol sig : String) (price delta : ℚ) (now : ℤ)
    (hp : PosInv cfg st) :
    PosInv cfg (attemptEntry cfg st symbol sig price delta now).2 := by
  rw [attemptEntry]
  split
  · exact execute_trade_posInv cfg st symbol sig price delta now hp
  · exact hp

theorem manageGo_posInv (cfg : Config) (prices : List (String × ℚ))
    (now : ℤ) :
    ∀ (syms : List String) (st : BotState), PosInv cfg st →
    PosInv cfg (manageGo cfg prices now syms st).2 := by
  intro syms
  induction syms with
  | nil => intro st hp; exact hp
  | cons symbol rest ih =>
    intro st hp
    rw [manageGo]
    cases h : st.positions.lookup symbol with
    | none => exact ih st hp
    | some pos0 =>
      have hst1 : PosInv cfg
          { st with positions := (updatePositions st.positions symbol
              (updatePeak pos0 ((prices.lookup symbol).getD pos0.entry_price))) } := by
        constructor
        · show ((updatePositions _ _ _).map Prod.fst).Nodup
          rw [map_fst_updatePositions]
          exact hp.1
        · show (updatePositions _ _ _).length ≤ _
          rw [updatePositions, List.length_map]
          exact hp.2
      cases he : exitReasonFor cfg
          (updatePeak pos0 ((prices.lookup symbol).getD pos0.entry_price))
          ((prices.lookup symbol).getD pos0.entry_price) now with
      | some reason =>
        simp only [he]
        exact close_position_posInv cfg _ symbol _ reason hst1
      | none =>
        simp only [he]
        exact ih _ hst1

theorem manage_positions_posInv (cfg : Config) (st : BotState)
    (prices : List (String × ℚ)) (now : ℤ) (hp : PosInv cfg st) :
    PosInv cfg (manage_positions cfg st prices now).2 := by
  rw [manage_positions]
  split
  · exact hp
  · exact manageGo_posInv cfg prices now _ st hp

theorem cycleStep_posInv (cfg : Config) (prices : List (String × ℚ))
    (bue : String → ℚ → ℚ) (now : ℤ) (st : BotState) (sp : String × ℚ)
    (hp : PosInv cfg st) :
    PosInv cfg (cycleStep cfg prices bue now st sp) := by
  rw [cycleStep]
  split
  · exact hp
  · exact posInv_of_positions_eq rfl
      (manage_positions_posInv cfg _ prices now
        (attemptEntry_posInv cfg st sp.1 _ sp.2 _ now hp))

theorem processCycle_posInv (cfg : Config) (st : BotState)
    (prices : List (String × ℚ)) (bue : String → ℚ → ℚ) (now : ℤ)
    (hp : PosInv cfg st) :
    PosInv cfg (processCycle cfg st prices bue now) :=
  foldl_preserve (PosInv cfg) (cycleStep cfg prices bue now)
    (fun s a hs => cycleStep_posInv cfg prices bue now s a hs) prices st hp

/-- C6: every successful position opening debits cash by exactly the
full trade notional (cash times risk-per-trade, not net of the entry
fee) — a strict decrease — and creates a position with quantity equal
to notional times (1 - feeRate) divided by price; and every reachable
state has at most one open position per symbol and at most the
configured maximum number of open positions. -/
theorem open_debits_notional_and_position_invariants :
    (∀ (cfg : Config) (st : BotState) (symbol sig : String)
       (price delta : ℚ) (now : ℤ),
      (sig = "BUY" ∨ sig = "SELL") →
      st.positions.length < cfg.maxPositions →
      st.positions.lookup symbol = none →
      10 ≤ st.cash * cfg.riskPerTrade →
      (execute_trade cfg st symbol sig price delta now).2.cash
          = st.cash - st.cash * cfg.riskPerTrade ∧
      (execute_trade cfg st symbol sig price delta now).2.cash < st.cash ∧
      ∃ p : Position,
        (execute_trade cfg st symbol sig price delta now).2.positions
            = st.positions ++ [(symbol, p)] ∧
        p.quantity = st.cash * cfg.riskPerTrade * (1 - cfg.feePct) / price) ∧
    (∀ (cfg : Config) (st : BotState), Reachable cfg st → PosInv cfg st) := by
  constructor
  · intro cfg st symbol sig price delta now hsig hlen hlook hmin
    simp only [execute_trade]
    rw [if_neg (not_not_intro hsig), if_neg (not_le.mpr hlen),
        if_neg (by simp [hlook]), if_neg (not_lt.mpr hmin)]
    refine ⟨rfl, ?_, ?_⟩
    · show st.cash - st.cash * cfg.riskPerTrade < st.cash
      exact sub_lt_self _ (lt_of_lt_of_le (by norm_num) hmin)
    · refine ⟨_, rfl, ?_⟩
      show (st.cash * cfg.riskPerTrade
              - st.cash * cfg.riskPerTrade * cfg.feePct) / price
          = st.cash * cfg.riskPerTrade * (1 - cfg.feePct) / price
      rw [mul_one_sub]
  · intro cfg st h
    induction h with
    | init sid => exact ⟨by simp [initState], by simp [initState]⟩
    | deposit amount _ ih =>
      exact posInv_of_positions_eq (deposit_funds_positions _ _) ih
    | entry symbol sig price delta now _ ih =>
      exact attemptEntry_posInv _ _ symbol sig price delta now ih
    | openTrade symbol sig price delta now _ ih =>
      exact execute_trade_posInv _ _ symbol sig price delta now ih
    | close symbol price reason _ ih =>
      exact close_position_posInv _ _ symbol price reason ih
    | manage prices now _ ih =>
      exact manage_positions_posInv _ _ prices now ih
    | equity prices _ ih =>
      exact posInv_of_positions_eq rfl ih
    | cycle prices bue now _ ih =>
      exact processCycle_posInv _ _ prices bue now ih

/-- Witness for C6: a concrete successful opening debits the notional,
and the initial state satisfies the invariant. -/
theorem open_debits_notional_and_position_invariants_witness :
    (execute_trade defaultConfig (initState "W6") "BTC" "BUY" 100 2 0).2.cash
        = 1000 - 1000 * defaultConfig.riskPerTrade ∧
    PosInv defaultConfig (initState "W6") :=
  ⟨(open_debits_notional_and_position_invariants.1 defaultConfig
      (initState "W6") "BTC" "BUY" 100 2 0 (Or.inl rfl)
      (by simp [initState, defaultConfig]) rfl
      (by norm_num [initState, defaultConfig])).1,
   open_debits_notional_and_position_invariants.2 defaultConfig
      (initState "W6") (Reachable.init "W6")⟩

end SpiralBot

namespace SpiralBot

/-- The first position (in scan order) whose peak-updated state
satisfies an exit rule, together with the rule's reason, mirroring the
scan order and rule priority of `manage_positions`. -/
def scanPredict (cfg : Config) (prices : List (String × ℚ)) (now : ℤ) :
    List (String × Position) → Option (String × String)
  | [] => none
  | (symbol, pos0) :: rest =>
    let price := (prices.lookup symbol).getD pos0.entry_price
    match exitReasonFor cfg (updatePeak pos0 price) price now with
    | some reason => some (symbol, reason)
    | none => scanPredict cfg prices now rest

/-- Characterization of the `manage_positions` loop: scanning the
remaining positions `ps` (with `done` already scanned), the loop
returns the no-close result and preserves all keys when no scanned
position satisfies an exit rule, and otherwise closes exactly the
first qualifying position with the first satisfied rule's reason. -/
theorem manageGo_scan (cfg : Config) (prices : List (String × ℚ)) (now : ℤ) :
    ∀ (ps done : List (String × Position)) (st : BotState),
    st.positions = done ++ ps →
    (st.positions.map Prod.fst).Nodup →
    (match scanPredict cfg prices now ps with
     | none =>
        (manageGo cfg prices now (ps.map Prod.fst) st).1 = (0, "NONE", "N/A")
          ∧ (manageGo cfg prices now (ps.map Prod.fst) st).2.positions.map
              Prod.fst = st.positions.map Prod.fst
     | some sr =>
        (manageGo cfg prices now (ps.map Prod.fst) st).1.2.2 = sr.2
          ∧ (manageGo cfg prices now (ps.map Prod.fst) st).2.positions.map
              Prod.fst = (st.positions.map Prod.fst).erase sr.1) := by
  intro ps
  induction ps with
  | nil =>
    intro done st hpos hnd
    simp only [scanPredict, List.map_nil, manageGo]
    constructor <;> trivial
  | cons a rest ih =>
    obtain ⟨symbol, pos0⟩ := a
    intro done st hpos hnd
    have hkeys : st.positions.map Prod.fst
        = done.map Prod.fst ++ symbol :: rest.map Prod.fst := by
      rw [hpos]
      simp
    have hnd2 : (done.map Prod.fst ++ symbol :: rest.map Prod.fst).Nodup :=
      hkeys ▸ hnd
    have hsymdone : symbol ∉ done.map Prod.fst := by
      have hd := (List.nodup_append.mp hnd2).2.2
      intro hc
      exact hd hc (List.mem_cons_self _ _)
    have hsymrest : symbol ∉ rest.map Prod.fst :=
      (List.nodup_cons.mp (List.nodup_append.mp hnd2).2.1).1
    have hlook : st.positions.lookup symbol = some pos0 := by
      rw [hpos, lookup_append_of_not_mem _ hsymdone, lookup_cons_self]
    have hupd : updatePositions st.positions symbol
        (updatePeak pos0 ((prices.lookup symbol).getD pos0.entry_price))
        = done ++ (symbol,
            updatePeak pos0 ((prices.lookup symbol).getD pos0.entry_price))
            :: rest := by
      rw [hpos, updatePositions_append,
          updatePositions_of_not_mem _ hsymdone,
          updatePositions_cons_self,
          updatePositions_of_not_mem _ hsymrest]
    simp only [List.map_cons, manageGo, hlook]
    cases he : exitReasonFor cfg
        (updatePeak pos0 ((prices.lookup symbol).getD pos0.entry_price))
        ((prices.lookup symbol).getD pos0.entry_price) now with
    | some reason =>
      simp only [scanPredict, he]
      have hlook1 : (updatePositions st.positions symbol
          (updatePeak pos0 ((prices.lookup symbol).getD pos0.entry_price))).lookup
            symbol
          = some (updatePeak pos0
              ((prices.lookup symbol).getD pos0.entry_price)) := by
        rw [hupd, lookup_append_of_not_mem _ hsymdone, lookup_cons_self]
      obtain ⟨h1, _h2c, h3⟩ := close_position_of_lookup cfg
        { st with positions := (updatePositions st.positions symbol
            (updatePeak pos0 ((prices.lookup symbol).getD pos0.entry_price))) }
        symbol ((prices.lookup symbol).getD pos0.entry_price) reason _ hlook1
      constructor
      · rw [h1]
      · rw [h3]
        show ((updatePositions _ _ _).eraseP _).map Prod.fst = _
        rw [map_fst_eraseP, map_fst_updatePositions]
    | none =>
      simp only [scanPredict, he]
      have hpos1 : ({ st with positions := (updatePositions st.positions symbol
            (updatePeak pos0 ((prices.lookup symbol).getD pos0.entry_price))) }
              : BotState).positions
          = (done ++ [(symbol, updatePeak pos0
              ((prices.lookup symbol).getD pos0.entry_price))]) ++ rest := by
        show updatePositions _ _ _ = _
        rw [hupd, List.append_assoc]
        rfl
      have hk1 : (({ st with positions := (updatePositions st.positions symbol
            (updatePeak pos0 ((prices.lookup symbol).getD pos0.entry_price))) }
              : BotState).positions.map Prod.fst) = st.positions.map Prod.fst := by
        show (updatePositions _ _ _).map Prod.fst = _
        rw [map_fst_updatePositions]
      have hnd1 : (({ st with positions := (updatePositions st.positions symbol
            (updatePeak pos0 ((prices.lookup symbol).getD pos0.entry_price))) }
              : BotState).positions.map Prod.fst).Nodup := by
        rw [hk1]
        exact hnd
      have hih := ih (done ++ [(symbol, updatePeak pos0
          ((prices.lookup symbol).getD pos0.entry_price))]) _ hpos1 hnd1
      cases hs : scanPredict cfg prices now rest with
      | none =>
        rw [hs] at hih
        exact ⟨hih.1, hih.2.trans hk1⟩
      | some sr =>
        rw [hs] at hih
        refine ⟨hih.1, hih.2.trans ?_⟩
        rw [hk1]

end SpiralBot

namespace SpiralBot

theorem length_le_length_erase_add_one (l : List String) (a : String) :
    l.length ≤ (l.erase a).length + 1 := by
  by_cases h : a ∈ l
  · rw [List.length_erase_of_mem h]
    omega
  · rw [List.erase_of_not_mem h]
    omega

/-- A sample long position used in the concrete C3 scenarios: entry
100, quantity 1, committed value 100, opened at time 0. -/
def longAt100 : Position :=
  { entry_price := 100, quantity := 1, timestamp := 0, peak_price := 100,
    side := "BUY", trade_value := 100 }

/-- A state with two open long positions A and B, both entered at 100. -/
def twoLongs : BotState :=
  { session_id := "S", cash := 100, portfolio_value := 100,
    positions := [("A", longAt100), ("B", longAt100)],
    store := some [logHeader] }

/-- C3 (counterexample): a single cycle can process more than one
position closure.  With two symbols A and B whose prices both fall to
90 (below every stop), the per-symbol loop of `run_simulation` invokes
exit evaluation once per symbol, so both positions are closed within
the same cycle: the position count drops from 2 to 0. -/
theorem cycle_two_closures_counterexample :
    (processCycle defaultConfig twoLongs [("A", 90), ("B", 90)]
        (fun _ p => p) 0).positions.length = 0 ∧
    twoLongs.positions.length = 2 := by
  constructor
  · norm_num [processCycle, cycleStep, twoLongs, longAt100, defaultConfig,
      generate_signal, attemptEntry, execute_trade, manage_positions,
      manageGo, updatePeak, updatePositions, exitReasonFor, close_position,
      calculate_equity, unrealizedPnl, log_to_csv, normalizeRow,
      List.lookup, logHeader, List.foldl]
    try simp [manageGo, updatePeak, updatePositions, exitReasonFor,
      close_position, calculate_equity, unrealizedPnl, log_to_csv,
      normalizeRow, List.lookup, logHeader]
    try norm_num [manageGo, updatePeak, updatePositions, exitReasonFor,
      close_position, calculate_equity, unrealizedPnl, log_to_csv,
      normalizeRow, List.lookup, logHeader]
    try simp [manageGo, updatePeak, updatePositions, exitReasonFor,
      close_position, calculate_equity, unrealizedPnl, log_to_csv,
      normalizeRow, List.lookup, logHeader]
    try norm_num [manageGo, updatePeak, updatePositions, exitReasonFor,
      close_position, calculate_equity, unrealizedPnl, log_to_csv,
      normalizeRow, List.lookup, logHeader]
  · rfl

/-- C3 (amended): each invocation of exit evaluation
(`manage_positions` — called once per symbol per cycle, so a full
cycle may close up to one position per symbol) processes at most one
closure: it scans the open positions in order, checks the rules in the
fixed priority order trailing stop, hard stop loss, take profit,
time-based exit, and on the first satisfied rule closes that position
immediately with that rule's reason, skipping all further rule checks
and all other positions for that invocation. -/
theorem manage_positions_at_most_one_close :
    ∀ (cfg : Config) (st : BotState) (prices : List (String × ℚ)) (now : ℤ),
    (st.positions.map Prod.fst).Nodup →
    ((manage_positions cfg st prices now).2.positions.map Prod.fst).Sublist
        (st.positions.map Prod.fst) ∧
    st.positions.length
        ≤ (manage_positions cfg st prices now).2.positions.length + 1 ∧
    (match scanPredict cfg prices now st.positions with
     | none =>
        (manage_positions cfg st prices now).1 = (0, "NONE", "N/A") ∧
        (manage_positions cfg st prices now).2.positions.length
            = st.positions.length
     | some sr =>
        (manage_positions cfg st prices now).1.2.2 = sr.2 ∧
        (manage_positions cfg st prices now).2.positions.map Prod.fst
            = (st.positions.map Prod.fst).erase sr.1) := by
  intro cfg st prices now hnd
  rw [manage_positions]
  by_cases hemp : st.positions.isEmpty = true
  · rw [if_pos hemp]
    have hnil : st.positions = [] := List.isEmpty_iff.mp hemp
    rw [hnil]
    simp [scanPredict]
  · rw [if_neg hemp]
    have h := manageGo_scan cfg prices now st.positions [] st (by simp) hnd
    cases hs : scanPredict cfg prices now st.positions with
    | none =>
      rw [hs] at h
      have hlen := congrArg List.length h.2
      simp only [List.length_map] at hlen
      refine ⟨?_, by omega, h.1, by omega⟩
      rw [h.2]
    | some sr =>
      rw [hs] at h
      have hsub : ((manageGo cfg prices now (st.positions.map Prod.fst)
          st).2.positions.map Prod.fst).Sublist (st.positions.map Prod.fst) := by
        rw [h.2]
        exact List.erase_sublist _ _
      have hlen := congrArg List.length h.2
      simp only [List.length_map] at hlen
      have hge := length_le_length_erase_add_one
        (st.positions.map Prod.fst) sr.1
      simp only [List.length_map] at hge
      refine ⟨hsub, by omega, h.1, h.2⟩

/-- Witness for C3 (amended): with positions A and B both qualifying
for closure, exit evaluation closes only the first scanned position A
with the trailing-stop reason and leaves B open. -/
theorem manage_positions_at_most_one_close_witness :
    (manage_positions defaultConfig twoLongs [("A", 90), ("B", 90)] 0).1.2.2
        = "TRAILING_STOP" ∧
    (manage_positions defaultConfig twoLongs
        [("A", 90), ("B", 90)] 0).2.positions.map Prod.fst = ["B"] := by
  have h := manage_positions_at_most_one_close defaultConfig twoLongs
    [("A", 90), ("B", 90)] 0 (by decide)
  have hs : scanPredict defaultConfig [("A", 90), ("B", 90)] 0
      twoLongs.positions = some ("A", "TRAILING_STOP") := by
    norm_num [scanPredict, twoLongs, longAt100, exitReasonFor, updatePeak,
      defaultConfig, List.lookup]
  rw [hs] at h
  obtain ⟨-, -, h1, h2⟩ := h
  refine ⟨h1, ?_⟩
  rw [h2]
  decide

end SpiralBot
